import Mathlib

/-!
Verification of the broadcast-server core (room registry, session protocol,
history persistence) against its natural-language specification.

The Python dictionaries of `RoomManager` are embedded as association lists
over `String` keys; `WebSocket` handles are embedded as natural numbers.
Delivery failure of a transport send is modelled by a boolean predicate on
connections passed to the fan-out operations.
-/

/-- Connections (Python `WebSocket` objects) are modelled as opaque numeric handles. -/
abbrev Conn := Nat

section Dict

variable {α : Type}

/-- Lookup in a Python dict modelled as an association list (first binding wins;
well-formed states never hold duplicate keys, mirroring Python dict semantics). -/
def dictGet (d : List (String × α)) (k : String) : Option α :=
  match d with
  | [] => none
  | (k', v) :: rest => if k' = k then some v else dictGet rest k

/-- Lookup with a default value, modelling Python `d.get(k, dflt)`. -/
def dictGetD (d : List (String × α)) (k : String) (dflt : α) : α :=
  (dictGet d k).getD dflt

/-- Update/insert, modelling Python `d[k] = v`. -/
def dictSet (d : List (String × α)) (k : String) (v : α) : List (String × α) :=
  match d with
  | [] => [(k, v)]
  | (k', v') :: rest => if k' = k then (k, v) :: rest else (k', v') :: dictSet rest k v

/-- Deletion, modelling Python `del d[k]` (no-op when the key is absent). -/
def dictDel (d : List (String × α)) (k : String) : List (String × α) :=
  match d with
  | [] => []
  | (k', v) :: rest => if k' = k then dictDel rest k else (k', v) :: dictDel rest k

/-- Membership test, modelling Python `k in d`. -/
def dictHas (d : List (String × α)) (k : String) : Bool :=
  (dictGet d k).isSome

theorem dictGet_dictSet_self (d : List (String × α)) (k : String) (v : α) :
    dictGet (dictSet d k v) k = some v := by
  induction d with
  | nil => simp [dictSet, dictGet]
  | cons p rest ih =>
    obtain ⟨k', v'⟩ := p
    by_cases h : k' = k
    · simp [dictSet, dictGet, h]
    · simp [dictSet, dictGet, h, ih]

theorem dictGet_dictSet_ne (d : List (String × α)) (k k' : String) (v : α)
    (h : k' ≠ k) : dictGet (dictSet d k v) k' = dictGet d k' := by
  have h' : k ≠ k' := Ne.symm h
  induction d with
  | nil => simp [dictSet, dictGet, h']
  | cons p rest ih =>
    obtain ⟨k₀, v₀⟩ := p
    by_cases h₀ : k₀ = k
    · subst h₀
      simp [dictSet, dictGet, h']
    · by_cases h₁ : k₀ = k'
      · simp [dictSet, dictGet, h₀, h₁, h]
      · simp [dictSet, dictGet, h₀, h₁, ih]

theorem dictGet_dictDel_self (d : List (String × α)) (k : String) :
    dictGet (dictDel d k) k = none := by
  induction d with
  | nil => simp [dictDel, dictGet]
  | cons p rest ih =>
    obtain ⟨k', v'⟩ := p
    by_cases h : k' = k
    · simp [dictDel, h, ih]
    · simp [dictDel, dictGet, h, ih]

theorem dictGet_dictDel_ne (d : List (String × α)) (k k' : String)
    (h : k' ≠ k) : dictGet (dictDel d k) k' = dictGet d k' := by
  induction d with
  | nil => simp [dictDel]
  | cons p rest ih =>
    obtain ⟨k₀, v₀⟩ := p
    by_cases h₀ : k₀ = k
    · have h' : k ≠ k' := Ne.symm h
      simp [dictDel, dictGet, h₀, h', ih]
    · by_cases h₁ : k₀ = k'
      · simp [dictDel, dictGet, h₀, h₁, h]
      · simp [dictDel, dictGet, h₀, h₁, ih]

theorem mem_dictSet (d : List (String × α)) (k : String) (v : α) (p : String × α)
    (hp : p ∈ dictSet d k v) : p = (k, v) ∨ p ∈ d := by
  induction d with
  | nil => simpa [dictSet] using hp
  | cons q rest ih =>
    obtain ⟨k', v'⟩ := q
    by_cases h : k' = k
    · simp only [dictSet, h, if_true, List.mem_cons] at hp
      rcases hp with h1 | h2
      · exact Or.inl h1
      · exact Or.inr (List.mem_cons_of_mem _ h2)
    · simp only [dictSet, h, if_false, List.mem_cons] at hp
      rcases hp with h1 | h2
      · exact Or.inr (by simp [h1])
      · rcases ih h2 with h3 | h4
        · exact Or.inl h3
        · exact Or.inr (List.mem_cons_of_mem _ h4)

theorem mem_dictDel (d : List (String × α)) (k : String) (p : String × α)
    (hp : p ∈ dictDel d k) : p ∈ d ∧ p.1 ≠ k := by
  induction d with
  | nil => simp [dictDel] at hp
  | cons q rest ih =>
    obtain ⟨k', v'⟩ := q
    by_cases h : k' = k
    · simp only [dictDel, h, if_true] at hp
      obtain ⟨h1, h2⟩ := ih hp
      exact ⟨List.mem_cons_of_mem _ h1, h2⟩
    · simp only [dictDel, h, if_false, List.mem_cons] at hp
      rcases hp with h1 | h2
      · exact ⟨by simp [h1], by simp [h1, h]⟩
      · obtain ⟨h3, h4⟩ := ih h2
        exact ⟨List.mem_cons_of_mem _ h3, h4⟩

theorem keys_dictSet_subset (d : List (String × α)) (k : String) (v : α) (x : String)
    (hx : x ∈ (dictSet d k v).map Prod.fst) : x ∈ d.map Prod.fst ∨ x = k := by
  induction d with
  | nil => simpa [dictSet] using hx
  | cons q rest ih =>
    obtain ⟨k', v'⟩ := q
    by_cases h : k' = k
    · simp only [dictSet, h, if_true, List.map_cons, List.mem_cons] at hx
      rcases hx with h1 | h2
      · exact Or.inr h1
      · exact Or.inl (List.mem_cons_of_mem _ h2)
    · simp only [dictSet, h, if_false, List.map_cons, List.mem_cons] at hx
      rcases hx with h1 | h2
      · exact Or.inl (by simp [h1])
      · rcases ih h2 with h3 | h4
        · exact Or.inl (List.mem_cons_of_mem _ h3)
        · exact Or.inr h4

theorem nodup_keys_dictSet (d : List (String × α)) (k : String) (v : α)
    (h : (d.map Prod.fst).Nodup) : ((dictSet d k v).map Prod.fst).Nodup := by
  induction d with
  | nil => simp [dictSet]
  | cons q rest ih =>
    obtain ⟨k', v'⟩ := q
    simp only [List.map_cons, List.nodup_cons] at h
    by_cases hk : k' = k
    · subst hk
      simpa [dictSet, List.nodup_cons] using h
    · simp only [dictSet, hk, if_false, List.map_cons, List.nodup_cons]
      refine ⟨?_, ih h.2⟩
      intro hmem
      rcases keys_dictSet_subset rest k v k' hmem with h1 | h2
      · exact h.1 h1
      · exact hk h2

theorem dictDel_sublist (d : List (String × α)) (k : String) :
    (dictDel d k).Sublist d := by
  induction d with
  | nil => simp [dictDel]
  | cons q rest ih =>
    obtain ⟨k', v'⟩ := q
    by_cases h : k' = k
    · simpa [dictDel, h] using ih.cons (k', v')
    · simpa [dictDel, h] using ih.cons₂ (k', v')

theorem nodup_keys_dictDel (d : List (String × α)) (k : String)
    (h : (d.map Prod.fst).Nodup) : ((dictDel d k).map Prod.fst).Nodup := by
  exact List.Nodup.sublist ((dictDel_sublist d k).map Prod.fst) h

theorem mem_dictSet_of_nodup (d : List (String × α)) (k : String) (v : α) (p : String × α)
    (hnd : (d.map Prod.fst).Nodup) (hp : p ∈ dictSet d k v) :
    p = (k, v) ∨ (p ∈ d ∧ p.1 ≠ k) := by
  induction d with
  | nil =>
    simp only [dictSet, List.mem_cons, List.not_mem_nil, or_false] at hp
    exact Or.inl hp
  | cons q rest ih =>
    obtain ⟨k', v'⟩ := q
    simp only [List.map_cons, List.nodup_cons] at hnd
    by_cases h : k' = k
    · subst h
      simp only [dictSet, if_true, List.mem_cons] at hp
      rcases hp with h1 | h2
      · exact Or.inl h1
      · right
        refine ⟨List.mem_cons_of_mem _ h2, ?_⟩
        intro hcontra
        exact hnd.1 (by simpa [hcontra] using List.mem_map_of_mem Prod.fst h2)
    · simp only [dictSet, h, if_false, List.mem_cons] at hp
      rcases hp with h1 | h2
      · right
        exact ⟨by simp [h1], by simp [h1, h]⟩
      · rcases ih hnd.2 h2 with h3 | h4
        · exact Or.inl h3
        · exact Or.inr ⟨List.mem_cons_of_mem _ h4.1, h4.2⟩

theorem dictGet_mem (d : List (String × α)) (k : String) (v : α)
    (h : dictGet d k = some v) : (k, v) ∈ d := by
  induction d with
  | nil => simp [dictGet] at h
  | cons q rest ih =>
    obtain ⟨k', v'⟩ := q
    by_cases hk : k' = k
    · subst hk
      simp only [dictGet, if_true, Option.some.injEq] at h
      simp [h]
    · simp only [dictGet, hk, if_false] at h
      exact List.mem_cons_of_mem _ (ih h)

end Dict

/-- Message type tags from `schemas.py` `MessageType`. -/
inductive MessageType where
  | chat_message
  | user_joined
  | user_left
  | system_info
  | private_message
  | file_shared
deriving DecidableEq, Repr

/-- Messages from `schemas.py` `Message`. The `id` and `timestamp` fields are
generated at runtime by `uuid4()` / `datetime.now()`; they do not influence any
behaviour modelled here and are omitted. `content` is a string in every code
path relevant to the claims. -/
structure Message where
  sender : String
  type : MessageType
  content : String
  recipient : Option String := none
deriving DecidableEq, Repr

/-- Configuration fields of `config.py` `Settings` that the modelled core reads. -/
structure Settings where
  room_code_length : Nat := 8
  max_connections_per_room : Nat := 100
  max_connections_per_user : Nat := 5
  message_history_length : Nat := 50
  max_message_length : Nat := 1000
  max_room_id_length : Nat := 50
  max_user_id_length : Nat := 50
deriving DecidableEq, Repr

/-- The default settings of `config.py`. -/
def defaultSettings : Settings := {}

/-- The mutable state of `room_manager.py` `RoomManager`. The Redis client is
modelled as absent (the in-process fallback dictionaries), whose list semantics
the external store's `LPUSH`/`LTRIM`/`LRANGE` calls mirror; the history claims
treat both implementations explicitly. -/
structure RoomManager where
  rooms : List (String × List Conn)
  user_connections : List (String × List Conn)
  message_history : List (String × List Message)
  room_codes : List (String × String)
  connection_counts : List (String × Nat)
  user_connection_counts : List (String × Nat)
deriving DecidableEq, Repr

/-- A freshly constructed manager (`RoomManager.__init__`). -/
def emptyManager : RoomManager :=
  { rooms := [], user_connections := [], message_history := [],
    room_codes := [], connection_counts := [], user_connection_counts := [] }

/-- Result of `RoomManager.connect`: the close code sent on rejection (4003 room
full, 4004 user over limit), whether `websocket.accept()` ran, and the state. -/
structure ConnectResult where
  closeCode : Option Nat
  accepted : Bool
  state : RoomManager
deriving DecidableEq, Repr

/-- Model of `RoomManager.get_room_code` (fallback dictionary path). -/
def RoomManager.get_room_code (m : RoomManager) (room_id : String) : Option String :=
  dictGet m.room_codes room_id

/-- Model of `RoomManager.set_room_code`: stores a freshly generated code (the
`secrets`-based generator is modelled by passing the generated code in). -/
def RoomManager.set_room_code (m : RoomManager) (room_id : String) (new_code : String) :
    RoomManager :=
  { m with room_codes := dictSet m.room_codes room_id new_code }

/-- Model of `RoomManager.is_code_valid`: Python `if not code: return False`
treats both a missing code and an empty string as invalid; otherwise the stored
code must exist and equal the supplied one exactly. -/
def RoomManager.is_code_valid (m : RoomManager) (room_id : String) (code : Option String) :
    Bool :=
  match code with
  | none => false
  | some c =>
    if c.isEmpty then false
    else
      match m.get_room_code room_id with
      | none => false
      | some stored => stored == c

/-- Model of `RoomManager.connect` (`room_manager.py` lines 90-125): quota
checks against the live index lengths, close 4003/4004 before accepting, then
registration in both the room-keyed and user-keyed indices and counters. -/
def RoomManager.connect (m : RoomManager) (s : Settings) (ws : Conn)
    (room_id user_id : String) : ConnectResult :=
  if s.max_connections_per_room ≤ (dictGetD m.rooms room_id []).length then
    ⟨some 4003, false, m⟩
  else if s.max_connections_per_user ≤ (dictGetD m.user_connections user_id []).length then
    ⟨some 4004, false, m⟩
  else
    let rooms₁ := if dictHas m.rooms room_id then m.rooms else dictSet m.rooms room_id []
    let counts₁ :=
      if dictHas m.rooms room_id then m.connection_counts
      else dictSet m.connection_counts room_id 0
    let rooms₂ := dictSet rooms₁ room_id (dictGetD rooms₁ room_id [] ++ [ws])
    let counts₂ := dictSet counts₁ room_id (dictGetD counts₁ room_id 0 + 1)
    let uconns₁ :=
      if dictHas m.user_connections user_id then m.user_connections
      else dictSet m.user_connections user_id []
    let ucounts₁ :=
      if dictHas m.user_connections user_id then m.user_connection_counts
      else dictSet m.user_connection_counts user_id 0
    let uconns₂ := dictSet uconns₁ user_id (dictGetD uconns₁ user_id [] ++ [ws])
    let ucounts₂ := dictSet ucounts₁ user_id (dictGetD ucounts₁ user_id 0 + 1)
    ⟨none, true,
      { m with rooms := rooms₂, connection_counts := counts₂,
               user_connections := uconns₂, user_connection_counts := ucounts₂ }⟩

/-- The room-index half of `RoomManager.disconnect` (`room_manager.py` lines
129-147): idempotent removal from the room index, count decrement clamped at
zero (Python `max(0, c - 1)`, which is `Nat` subtraction), and room-entry,
count-entry and in-memory room-code deletion when the room empties. -/
def RoomManager.disconnectRoomPart (m : RoomManager) (ws : Conn) (room_id : String) :
    RoomManager :=
  match dictGet m.rooms room_id with
  | none => m
  | some conns =>
    if ws ∈ conns then
      let conns' := conns.erase ws
      let counts' :=
        dictSet m.connection_counts room_id (dictGetD m.connection_counts room_id 0 - 1)
      if conns'.isEmpty then
        { m with rooms := dictDel m.rooms room_id,
                 connection_counts := dictDel counts' room_id,
                 room_codes := dictDel m.room_codes room_id }
      else
        { m with rooms := dictSet m.rooms room_id conns', connection_counts := counts' }
    else m

/-- The user-index half of `RoomManager.disconnect` (`room_manager.py` lines
149-158). -/
def RoomManager.disconnectUserPart (m : RoomManager) (ws : Conn) (user_id : String) :
    RoomManager :=
  match dictGet m.user_connections user_id with
  | none => m
  | some uconns =>
    if ws ∈ uconns then
      let uconns' := uconns.erase ws
      let ucounts' :=
        dictSet m.user_connection_counts user_id
          (dictGetD m.user_connection_counts user_id 0 - 1)
      if uconns'.isEmpty then
        { m with user_connections := dictDel m.user_connections user_id,
                 user_connection_counts := dictDel ucounts' user_id }
      else
        { m with user_connections := dictSet m.user_connections user_id uconns',
                 user_connection_counts := ucounts' }
    else m

/-- Full `RoomManager.disconnect`: the room-index cleanup followed by the
user-index cleanup. -/
def RoomManager.disconnect (m : RoomManager) (ws : Conn) (room_id user_id : String) :
    RoomManager :=
  (m.disconnectRoomPart ws room_id).disconnectUserPart ws user_id

/-- Model of `RoomManager.broadcast_to_room` (`room_manager.py` lines 160-189).
`fails c = true` models `connection.send_text` raising for `c`. Returns the new
state and the list of connections that received the message. The Python dead
connection loop guards membership before `remove`; `List.erase` is already a
no-op on absent elements, so the guard is implicit. -/
def RoomManager.broadcast_to_room (m : RoomManager) (room_id : String) (_msg : Message)
    (fails : Conn → Bool) : RoomManager × List Conn :=
  match dictGet m.rooms room_id with
  | none => (m, [])
  | some conns =>
    let delivered := conns.filter (fun c => !fails c)
    let dead := conns.filter fails
    let conns' := dead.foldl (fun cur d => cur.erase d) conns
    if conns'.isEmpty then
      ({ m with rooms := dictDel m.rooms room_id,
                room_codes := dictDel m.room_codes room_id }, delivered)
    else
      ({ m with rooms := dictSet m.rooms room_id conns' }, delivered)

/-- Model of `RoomManager.send_personal_message` (`room_manager.py` lines
230-261): fan-out over the recipient's connections, dead-connection removal
from the user index, and deletion of the emptied user entry and its count. -/
def RoomManager.send_personal_message (m : RoomManager) (_msg : Message)
    (recipient_id : String) (fails : Conn → Bool) : RoomManager × Bool :=
  match dictGet m.user_connections recipient_id with
  | none => (m, false)
  | some conns =>
    let sent_count := (conns.filter (fun c => !fails c)).length
    let dead := conns.filter fails
    let conns' := dead.foldl (fun cur d => cur.erase d) conns
    let m' :=
      if conns'.isEmpty then
        { m with user_connections := dictDel m.user_connections recipient_id,
                 user_connection_counts := dictDel m.user_connection_counts recipient_id }
      else
        { m with user_connections := dictSet m.user_connections recipient_id conns' }
    (m', decide (0 < sent_count))

/-- One push of the in-process fallback history in `RoomManager.store_message`:
`insert(0, msg)` followed by the slice `[:message_history_length]`. -/
def pushHistoryMem (n : Nat) (h : List Message) (msg : Message) : List Message :=
  (msg :: h).take n

/-- Redis `LTRIM key 0 stop` applied to the head of a list: keeps indices
`0..stop`, where a negative `stop` counts from the end of the list. -/
def redisLtrimHead (l : List Message) (stop : Int) : List Message :=
  let stopIdx : Int := if stop < 0 then (l.length : Int) + stop else stop
  if stopIdx < 0 then [] else l.take (stopIdx.toNat + 1)

/-- One push of the external-store history in `RoomManager.store_message`:
`LPUSH` followed by `LTRIM key 0 (message_history_length - 1)`. -/
def pushHistoryRedis (n : Nat) (h : List Message) (msg : Message) : List Message :=
  redisLtrimHead (msg :: h) ((n : Int) - 1)

/-- Model of `RoomManager.store_message` (fallback dictionary path; the Redis
path applies `pushHistoryRedis` to the same per-room list). -/
def RoomManager.store_message (m : RoomManager) (s : Settings) (room_id : String)
    (msg : Message) : RoomManager :=
  let h := dictGetD m.message_history room_id []
  { m with message_history :=
      dictSet m.message_history room_id (pushHistoryMem s.message_history_length h msg) }

/-- Model of `RoomManager.get_message_history`: the stored list is newest-first
and is reversed before being returned (both the Redis path's `.reverse()` and
the fallback path's `reversed(...)`). -/
def RoomManager.get_message_history (m : RoomManager) (room_id : String) : List Message :=
  (dictGetD m.message_history room_id []).reverse

/-- Model of Python `str.strip()` with no argument: removes leading and
trailing whitespace. Defined over the character list so that it evaluates by
kernel reduction (`String.trim` does not). -/
def pyStrip (s : String) : String :=
  ⟨((s.data.dropWhile Char.isWhitespace).reverse.dropWhile Char.isWhitespace).reverse⟩

/-- JSON values, as produced by Python `json.loads`. -/
inductive Json where
  | null
  | bool (b : Bool)
  | num (n : Int)
  | str (s : String)
  | arr (xs : List Json)
  | obj (fields : List (String × Json))

/-- An inbound WebSocket text frame in the `Active` state, together with the
outcome of `json.loads` on it: `parsed raw j` is a frame whose text parses to
the JSON value `j`; `unparsed raw` is a frame whose text raises
`json.JSONDecodeError`. -/
inductive Inbound where
  | parsed (raw : String) (j : Json)
  | unparsed (raw : String)

/-- The raw text of an inbound frame (`raw_data` in `main.py`). -/
def Inbound.raw : Inbound → String
  | .parsed r _ => r
  | .unparsed r => r

/-- The externally visible effect of processing one inbound frame. -/
inductive FrameEffect where
  | errorFrame (text : String)
  | broadcastChat (content : String)
  | privateMsg (recipient content : String)
  | dropped
deriving DecidableEq, Repr

/-- Field lookup on a parsed JSON object, modelling Python `dict.get(key)`
(the parsed object's keys are unique, as in a Python dict). -/
def objGet (fields : List (String × Json)) (key : String) : Option Json :=
  (fields.find? (fun p => p.1 == key)).map (fun p => p.2)

/-- Model of `json_data.get(key, "").strip()`: `some s` is the stripped string
(defaulting to the empty string when the key is absent); `none` models the
`AttributeError` raised when the field's value is not a string. -/
def getStrStripped (fields : List (String × Json)) (key : String) : Option String :=
  match objGet fields key with
  | none => some ""
  | some (.str s) => some (pyStrip s)
  | some _ => none

/-- The value of the `type` field when it is a JSON string; Python's
`json_data.get("type") == "..."` comparisons are false for every non-string
`type` value, which this collapses to `none`. -/
def typeTag (fields : List (String × Json)) : Option String :=
  match objGet fields "type" with
  | some (.str t) => some t
  | _ => none

/-- Model of the inbound-frame dispatch of `websocket_endpoint` (`main.py`
lines 244-311). The length guard uses the literal `1000`, not
`settings.max_message_length`; the `Settings` argument records that the
configuration is in scope but unused here, exactly as in the source. A JSON
value without a `.get` method (anything that is not an object) raises
`AttributeError`, which is caught by the generic `except Exception` handler
and answered with the inline error frame; only `json.JSONDecodeError` and
`ValueError` reach the plain-text fallback. -/
def handle_frame (_s : Settings) (inb : Inbound) : FrameEffect :=
  if 1000 < inb.raw.length then
    .errorFrame "Message too long (max 1000 characters)"
  else
    match inb with
    | .unparsed raw =>
      let content := pyStrip raw
      if content.isEmpty then .dropped else .broadcastChat content
    | .parsed _ j =>
      match j with
      | .obj fields =>
        if typeTag fields == some "private_message" then
          match getStrStripped fields "recipient" with
          | none => .errorFrame "Failed to process message"
          | some recipient =>
            match getStrStripped fields "content" with
            | none => .errorFrame "Failed to process message"
            | some content =>
              if recipient.isEmpty || content.isEmpty then
                .errorFrame "Private message requires recipient and content"
              else .privateMsg recipient content
        else if typeTag fields == some "chat_message" then
          match getStrStripped fields "content" with
          | none => .errorFrame "Failed to process message"
          | some content =>
            if content.isEmpty then .dropped else .broadcastChat content
        else .dropped
      | _ => .errorFrame "Failed to process message"

/-- The registry/history state change performed for one inbound frame by the
receive loop of `websocket_endpoint`: a chat broadcast (explicit or plain-text
fallback) calls `broadcast_to_room` then `store_message`; a private message
calls `send_personal_message`; error frames and dropped frames leave the
manager untouched. -/
def handle_frame_state (s : Settings) (m : RoomManager) (room_id user_id : String)
    (inb : Inbound) (fails : Conn → Bool) : RoomManager :=
  match handle_frame s inb with
  | .broadcastChat content =>
    let msg : Message :=
      { sender := user_id, type := .chat_message, content := content, recipient := none }
    let m₁ := (m.broadcast_to_room room_id msg fails).1
    m₁.store_message s room_id msg
  | .privateMsg recipient content =>
    let pm : Message :=
      { sender := user_id, type := .private_message, content := content,
        recipient := some recipient }
    (m.send_personal_message pm recipient fails).1
  | _ => m

/-- Result of the admission section of `websocket_endpoint` (`main.py` lines
193-218): the close code sent on rejection, whether the handshake was
accepted, whether this admission created the room, and the manager state. -/
structure AdmissionResult where
  closeCode : Option Nat
  accepted : Bool
  isNewRoom : Bool
  state : RoomManager
deriving DecidableEq, Repr

/-- Model of the admission section of `websocket_endpoint` (`main.py` lines
193-218): id validation (close 4000), the room-code gate (Python truthiness of
`existing_code`, close 4001), code generation for a new room, then
`RoomManager.connect` (close 4003/4004). `fresh_code` stands for the code the
`secrets`-based generator would produce. -/
def websocket_admission (s : Settings) (m : RoomManager) (ws : Conn)
    (room_id user_id : String) (code : Option String) (fresh_code : String) :
    AdmissionResult :=
  if (pyStrip room_id).isEmpty || (pyStrip user_id).isEmpty then
    ⟨some 4000, false, false, m⟩
  else if 50 < room_id.length ∨ 50 < user_id.length then
    ⟨some 4000, false, false, m⟩
  else
    if ((m.get_room_code room_id).getD "").isEmpty then
      let m₁ := m.set_room_code room_id fresh_code
      let r := m₁.connect s ws room_id user_id
      ⟨r.closeCode, r.accepted, true, r.state⟩
    else
      if !(m.is_code_valid room_id code) then
        ⟨some 4001, false, false, m⟩
      else
        let r := m.connect s ws room_id user_id
        ⟨r.closeCode, r.accepted, false, r.state⟩

/-- Modelled from the spec: the close code the specification assigns to each
admission failure (4000 empty/oversized ids, 4001 invalid or missing room code
for an existing room, 4003 room at capacity, 4004 user at capacity, in that
order), used as the reference against which the code's admission path is
checked. -/
def admission_spec_close (s : Settings) (m : RoomManager) (room_id user_id : String)
    (code : Option String) : Option Nat :=
  if (pyStrip room_id).isEmpty || (pyStrip user_id).isEmpty then some 4000
  else if 50 < room_id.length ∨ 50 < user_id.length then some 4000
  else if !((m.get_room_code room_id).getD "").isEmpty ∧ !(m.is_code_valid room_id code) then
    some 4001
  else if s.max_connections_per_room ≤ (dictGetD m.rooms room_id []).length then some 4003
  else if s.max_connections_per_user ≤ (dictGetD m.user_connections user_id []).length then
    some 4004
  else none

/-- The `user_joined` notice broadcast by `websocket_endpoint` after admission. -/
def joinMessage (user_id : String) : Message :=
  { sender := "System", type := .user_joined,
    content := user_id ++ " has joined the room.", recipient := none }

/-- Model of the post-auth join sequence of `websocket_endpoint` (`main.py`
lines 218-240): `RoomManager.connect`, then the broadcast of the `user_joined`
notice to the room. The intervening creation message and history replay send
only to the joining socket or through the user index and do not change room
membership, so the room contents seen by the broadcast are those left by
`connect`. Returns the connect result and the connections that received the
`user_joined` notice. -/
def join_flow (s : Settings) (m : RoomManager) (ws : Conn) (room_id user_id : String)
    (fails : Conn → Bool) : ConnectResult × List Conn :=
  let r := m.connect s ws room_id user_id
  match r.closeCode with
  | some _ => (r, [])
  | none =>
    let out := r.state.broadcast_to_room room_id (joinMessage user_id) fails
    ({ r with state := out.1 }, out.2)

/-- One registry-level operation, for stating invariants over arbitrary
operation sequences. -/
inductive Op where
  | connectOp (ws : Conn) (room user : String)
  | disconnectOp (ws : Conn) (room user : String)
  | broadcastOp (room : String) (msg : Message) (fails : Conn → Bool)
  | frameOp (room user : String) (inb : Inbound) (fails : Conn → Bool)

/-- Apply one operation to the manager state. -/
def applyOp (s : Settings) (m : RoomManager) : Op → RoomManager
  | .connectOp ws room user => (m.connect s ws room user).state
  | .disconnectOp ws room user => m.disconnect ws room user
  | .broadcastOp room msg fails => (m.broadcast_to_room room msg fails).1
  | .frameOp room user inb fails => handle_frame_state s m room user inb fails

/-- Apply a sequence of operations left to right. -/
def applyOps (s : Settings) (m : RoomManager) (ops : List Op) : RoomManager :=
  ops.foldl (applyOp s) m

/-- Folding `List.erase` over a list that does not contain `a` leaves a leading
`a` in place. -/
theorem foldl_erase_cons_not_mem (a : Conn) (ds : List Conn) (t : List Conn)
    (ha : a ∉ ds) :
    ds.foldl (fun cur d => cur.erase d) (a :: t)
      = a :: ds.foldl (fun cur d => cur.erase d) t := by
  induction ds generalizing t with
  | nil => rfl
  | cons d ds' ih =>
    have hda : d ≠ a := fun h => ha (by simp [h])
    have ha' : a ∉ ds' := fun h => ha (List.mem_cons_of_mem _ h)
    simp only [List.foldl_cons]
    rw [List.erase_cons_tail (by simp [Ne.symm hda])]
    exact ih (t.erase d) ha'

/-- The dead-connection removal loop of `broadcast_to_room` /
`send_personal_message`: folding `List.erase` over the failing elements of a
duplicate-free list removes exactly those elements. -/
theorem foldl_erase_filter (conns : List Conn) (p : Conn → Bool) (hnd : conns.Nodup) :
    (conns.filter p).foldl (fun cur d => cur.erase d) conns
      = conns.filter (fun c => !p c) := by
  induction conns with
  | nil => rfl
  | cons a t ih =>
    simp only [List.nodup_cons] at hnd
    by_cases hp : p a = true
    · simp only [List.filter_cons, hp, if_true, List.foldl_cons, List.erase_cons_head]
      rw [ih hnd.2]
      simp [List.filter_cons, hp]
    · have hp' : p a = false := by simpa using hp
      have hnotmem : a ∉ t.filter p := fun h => hnd.1 (List.mem_of_mem_filter h)
      simp only [List.filter_cons, hp', if_false, Bool.false_eq_true]
      rw [foldl_erase_cons_not_mem a (t.filter p) t hnotmem, ih hnd.2]
      simp [hp']

/-- `connect` never touches the history store. -/
theorem connect_message_history (m : RoomManager) (s : Settings) (ws : Conn)
    (room_id user_id : String) :
    (m.connect s ws room_id user_id).state.message_history = m.message_history := by
  unfold RoomManager.connect
  dsimp only
  repeat' split
  all_goals rfl

/-- `disconnect` never touches the history store. -/
theorem disconnect_message_history (m : RoomManager) (ws : Conn)
    (room_id user_id : String) :
    (m.disconnect ws room_id user_id).message_history = m.message_history := by
  unfold RoomManager.disconnect RoomManager.disconnectUserPart RoomManager.disconnectRoomPart
  dsimp only
  repeat' split
  all_goals rfl

/-- `broadcast_to_room` never touches the history store. -/
theorem broadcast_message_history (m : RoomManager) (room_id : String) (msg : Message)
    (fails : Conn → Bool) :
    (m.broadcast_to_room room_id msg fails).1.message_history = m.message_history := by
  unfold RoomManager.broadcast_to_room
  dsimp only
  repeat' split
  all_goals rfl

/-- `send_personal_message` never touches the history store. -/
theorem send_personal_message_history (m : RoomManager) (msg : Message)
    (recipient_id : String) (fails : Conn → Bool) :
    (m.send_personal_message msg recipient_id fails).1.message_history
      = m.message_history := by
  unfold RoomManager.send_personal_message
  dsimp only
  repeat' split
  all_goals rfl

/-- `disconnectUserPart` never touches the room index. -/
theorem disconnectUserPart_rooms (m : RoomManager) (ws : Conn) (user_id : String) :
    (m.disconnectUserPart ws user_id).rooms = m.rooms := by
  unfold RoomManager.disconnectUserPart
  dsimp only
  repeat' split
  all_goals rfl

/-- `send_personal_message` never touches the room index. -/
theorem send_personal_message_rooms (m : RoomManager) (msg : Message)
    (recipient_id : String) (fails : Conn → Bool) :
    (m.send_personal_message msg recipient_id fails).1.rooms = m.rooms := by
  unfold RoomManager.send_personal_message
  dsimp only
  repeat' split
  all_goals rfl

/-- `store_message` never touches the room index. -/
theorem store_message_rooms (m : RoomManager) (s : Settings) (room_id : String)
    (msg : Message) : (m.store_message s room_id msg).rooms = m.rooms := rfl

/-- A failure predicate under which every delivery raises. -/
def allFail : Conn → Bool := fun _ => true

/-- A failure predicate under which every delivery succeeds. -/
def noFail : Conn → Bool := fun _ => false

/-- Claim C1 (counterexample): a frame whose text is valid JSON but not an
object — here the JSON scalar `42` — is answered with the inline error frame
produced by the `except Exception` handler (the `.get` call on an `int` raises
`AttributeError`), not treated as plain text and broadcast; and a JSON object
with an unknown `type` is silently dropped, not treated as plain text. -/
theorem C1_fallback_counterexample :
    handle_frame defaultSettings (.parsed "42" (.num 42))
        = .errorFrame "Failed to process message" ∧
    handle_frame defaultSettings (.parsed "42" (.num 42)) ≠ .broadcastChat "42" ∧
    handle_frame defaultSettings
        (.parsed "\x7b\"type\": \"foo\"\x7d" (.obj [("type", .str "foo")])) = .dropped ∧
    handle_frame defaultSettings
        (.parsed "\x7b\"type\": \"foo\"\x7d" (.obj [("type", .str "foo")]))
      ≠ .broadcastChat (pyStrip "\x7b\"type\": \"foo\"\x7d") := by
  refine ⟨rfl, by decide, rfl, by decide⟩

/-- Claim C1 (amended): only a frame that fails JSON parsing is treated as
plain text — trimmed and, if non-empty, handled via the chat-message effect,
identically to an explicit `chat_message` frame with that content. A frame
that parses to a JSON object whose `type` is neither `private_message` nor
`chat_message` is silently dropped, and a frame that parses to a non-object
JSON value is answered with the inline `Failed to process message` error
frame. -/
theorem C1_plain_text_fallback (s : Settings) (inb : Inbound)
    (hlen : inb.raw.length ≤ 1000) :
    (∀ raw, inb = .unparsed raw →
      handle_frame s inb
        = if (pyStrip raw).isEmpty then .dropped else .broadcastChat (pyStrip raw)) ∧
    (∀ raw fields, inb = .parsed raw (.obj fields) →
      typeTag fields ≠ some "private_message" → typeTag fields ≠ some "chat_message" →
      handle_frame s inb = .dropped) ∧
    (∀ raw j, inb = .parsed raw j → (∀ fields, j ≠ .obj fields) →
      handle_frame s inb = .errorFrame "Failed to process message") := by
  have hnot : ¬(1000 < inb.raw.length) := Nat.not_lt.mpr hlen
  refine ⟨?_, ?_, ?_⟩
  · rintro raw rfl
    simp [handle_frame, hnot]
  · rintro raw fields rfl hpm hcm
    have hpm' : (typeTag fields == some "private_message") = false := by
      simpa using hpm
    have hcm' : (typeTag fields == some "chat_message") = false := by
      simpa using hcm
    simp [handle_frame, hnot, hpm', hcm']
  · rintro raw j rfl hobj
    cases j with
    | obj fields => exact absurd rfl (hobj fields)
    | null => simp [handle_frame, hnot]
    | bool b => simp [handle_frame, hnot]
    | num n => simp [handle_frame, hnot]
    | str t => simp [handle_frame, hnot]
    | arr xs => simp [handle_frame, hnot]

/-- Witness for C1 (amended) at a concrete plain-text frame. -/
theorem C1_plain_text_fallback_witness :
    handle_frame defaultSettings (.unparsed "  hi  ") = .broadcastChat "hi" := by
  have h := (C1_plain_text_fallback defaultSettings (.unparsed "  hi  ")
    (by decide)).1 "  hi  " rfl
  rw [h]
  decide

/-- Only the length guard of the receive loop produces the `Message too long`
error frame: every branch below it yields a different constructor or a
different error text. -/
theorem handle_frame_not_too_long (s : Settings) (inb : Inbound)
    (h : ¬1000 < inb.raw.length) :
    handle_frame s inb ≠ .errorFrame "Message too long (max 1000 characters)" := by
  cases inb with
  | unparsed raw =>
    simp only [Inbound.raw] at h
    simp only [handle_frame, Inbound.raw, h, if_false]
    split <;> simp
  | parsed raw j =>
    simp only [Inbound.raw] at h
    cases j with
    | obj fields =>
      simp only [handle_frame, Inbound.raw, h, if_false]
      repeat' split
      all_goals simp
    | null => simp [handle_frame, Inbound.raw, h]
    | bool b => simp [handle_frame, Inbound.raw, h]
    | num n => simp [handle_frame, Inbound.raw, h]
    | str t => simp [handle_frame, Inbound.raw, h]
    | arr xs => simp [handle_frame, Inbound.raw, h]

/-- Claim C10: an inbound frame is answered with the inline `Message too long`
error frame iff its raw length exceeds the literal 1000 of `main.py`; a frame
over that limit causes no state change; and the configured
`max_message_length` setting has no influence on frame handling at all. -/
theorem C10_length_limit_hardcoded (s₁ s₂ : Settings) (inb : Inbound) :
    (handle_frame s₁ inb = .errorFrame "Message too long (max 1000 characters)" ↔
      1000 < inb.raw.length) ∧
    handle_frame s₁ inb = handle_frame s₂ inb ∧
    (1000 < inb.raw.length → ∀ m room user fails,
      handle_frame_state s₁ m room user inb fails = m) := by
  by_cases h : 1000 < inb.raw.length
  · refine ⟨⟨fun _ => h, fun _ => by simp [handle_frame, h]⟩, rfl, ?_⟩
    intro _ m room user fails
    simp [handle_frame_state, handle_frame, h]
  · exact ⟨⟨fun heq => absurd heq (handle_frame_not_too_long s₁ inb h),
      fun hlt => absurd hlt h⟩, rfl, fun hlt => absurd hlt h⟩

/-- A raw frame text of length 1001. -/
def longRaw : String := String.mk (List.replicate 1001 'a')

/-- Witness for C10 at a concrete over-long frame. -/
theorem C10_length_limit_hardcoded_witness :
    handle_frame defaultSettings (.unparsed longRaw)
        = .errorFrame "Message too long (max 1000 characters)" ∧
    handle_frame_state defaultSettings emptyManager "r" "u" (.unparsed longRaw) noFail
        = emptyManager := by
  have hlen : 1000 < (Inbound.unparsed longRaw).raw.length := by
    have he : (Inbound.unparsed longRaw).raw.length = (List.replicate 1001 'a').length := rfl
    rw [he, List.length_replicate]
    omega
  have h := C10_length_limit_hardcoded defaultSettings defaultSettings (.unparsed longRaw)
  exact ⟨h.1.mpr hlen, h.2.2 hlen emptyManager "r" "u" noFail⟩

/-- Claim C3 (code bug, evaluation at the failing input): starting from a fresh
manager, admit connection 1 to room `r` as user `u`, then broadcast to `r`
with the only delivery failing. The room entry is reaped and deleted, but the
stored connection count for `r` still reads 1: broadcast-driven reaping
neither decrements `connection_counts` nor deletes the entry of a room it
removes, so the stored count is not zero for an absent room. -/
theorem C3_count_desync_at_failing_input :
    ((emptyManager.connect defaultSettings 1 "r" "u").closeCode = none) ∧
    dictGet ((emptyManager.connect defaultSettings 1 "r" "u").state.broadcast_to_room
        "r" (joinMessage "u") allFail).1.rooms "r" = none ∧
    dictGet ((emptyManager.connect defaultSettings 1 "r" "u").state.broadcast_to_room
        "r" (joinMessage "u") allFail).1.connection_counts "r" = some 1 := by
  refine ⟨rfl, rfl, rfl⟩

/-- A manager whose room `r` holds connections 1 and 2, owned by users `u`
and `v` respectively. -/
def mgrC2 : RoomManager :=
  { rooms := [("r", [1, 2])], user_connections := [("u", [1]), ("v", [2])],
    message_history := [], room_codes := [], connection_counts := [("r", 2)],
    user_connection_counts := [("u", 1), ("v", 1)] }

/-- A failure predicate under which only connection 2 raises on send. -/
def failsTwo : Conn → Bool := fun c => c == 2

/-- Claim C2 (counterexample): broadcasting to room `r` of `mgrC2` with
connection 2 failing removes 2 from the room's connection set but leaves the
user index untouched: user `v` still holds the dead connection 2, contradicting
the claim that failed connections are removed from their user index entries. -/
theorem C2_user_index_counterexample :
    dictGetD (mgrC2.broadcast_to_room "r" (joinMessage "u") failsTwo).1.rooms "r" [] = [1] ∧
    (mgrC2.broadcast_to_room "r" (joinMessage "u") failsTwo).1.user_connections
        = [("u", [1]), ("v", [2])] ∧
    2 ∈ dictGetD (mgrC2.broadcast_to_room "r" (joinMessage "u") failsTwo).1.user_connections
        "v" [] := by
  refine ⟨rfl, rfl, by decide⟩

/-- Claim C2 (amended): after the delivery pass of `broadcast_to_room` over an
existing room, every connection whose delivery failed has been removed from the
room's connection set, and the delivered list is exactly the non-failing
snapshot; but the user index and the stored connection counts are left
completely untouched by broadcast, and if every delivery failed the room entry
is deleted. -/
theorem C2_broadcast_reaps_room_only (m : RoomManager) (room : String) (msg : Message)
    (fails : Conn → Bool) (conns : List Conn)
    (hc : dictGet m.rooms room = some conns) (hnd : conns.Nodup) :
    (∀ c ∈ conns, fails c = true →
      c ∉ dictGetD (m.broadcast_to_room room msg fails).1.rooms room []) ∧
    (m.broadcast_to_room room msg fails).1.user_connections = m.user_connections ∧
    (m.broadcast_to_room room msg fails).1.connection_counts = m.connection_counts ∧
    (m.broadcast_to_room room msg fails).2 = conns.filter (fun c => !fails c) ∧
    (conns.filter (fun c => !fails c) = [] →
      dictGet (m.broadcast_to_room room msg fails).1.rooms room = none) := by
  have hfold := foldl_erase_filter conns fails hnd
  unfold RoomManager.broadcast_to_room
  rw [hc]
  dsimp only
  rw [hfold]
  split
  next hemp =>
    refine ⟨?_, rfl, rfl, rfl, fun _ => dictGet_dictDel_self m.rooms room⟩
    intro c _ _
    simp [dictGetD, dictGet_dictDel_self]
  next hemp =>
    refine ⟨?_, rfl, rfl, rfl, fun hnil => absurd (by simp [hnil]) hemp⟩
    intro c hcmem hcfail
    simp only [dictGetD, dictGet_dictSet_self, Option.getD_some]
    intro hmem
    have hx := (List.mem_filter.mp hmem).2
    simp [hcfail] at hx

/-- Witness for C2 (amended) at the concrete state `mgrC2`. -/
theorem C2_broadcast_reaps_room_only_witness :
    2 ∉ dictGetD (mgrC2.broadcast_to_room "r" (joinMessage "u") failsTwo).1.rooms "r" [] ∧
    (mgrC2.broadcast_to_room "r" (joinMessage "u") failsTwo).1.user_connections
        = mgrC2.user_connections := by
  have h := C2_broadcast_reaps_room_only mgrC2 "r" (joinMessage "u") failsTwo [1, 2]
    rfl (by decide)
  exact ⟨h.1 2 (by decide) (by decide), h.2.1⟩

/-- A manager whose room `r` holds connection 1 owned by user `a`, with a
stored room code. -/
def mgrC4 : RoomManager :=
  { rooms := [("r", [1])], user_connections := [("a", [1])], message_history := [],
    room_codes := [("r", "ABCDE")], connection_counts := [("r", 1)],
    user_connection_counts := [("a", 1)] }

/-- Claim C4 (counterexample): when user `b` joins room `r` of `mgrC4` (which
already holds `a`'s connection 1) as connection 2, the `user_joined` notice is
delivered to `[1, 2]` — including the joining user's own connection 2 — because
`connect` registers the socket before the join notice is broadcast to the whole
room. -/
theorem C4_join_notice_counterexample :
    (join_flow defaultSettings mgrC4 2 "r" "b" noFail).2 = [1, 2] ∧
    2 ∈ (join_flow defaultSettings mgrC4 2 "r" "b" noFail).2 := by
  refine ⟨rfl, by decide⟩

/-- A connection present in the room whose delivery does not fail is in the
delivered list of `broadcast_to_room`. -/
theorem broadcast_delivered_mem (m : RoomManager) (room : String) (msg : Message)
    (fails : Conn → Bool) (conns : List Conn) (hc : dictGet m.rooms room = some conns)
    (c : Conn) (hmem : c ∈ conns) (hc' : fails c = false) :
    c ∈ (m.broadcast_to_room room msg fails).2 := by
  unfold RoomManager.broadcast_to_room
  rw [hc]
  dsimp only
  split <;> exact List.mem_filter.mpr ⟨hmem, by simp [hc']⟩

/-- On a successful `connect`, the room's connection list is the previous list
with the new socket appended. -/
theorem connect_rooms_get (m : RoomManager) (s : Settings) (ws : Conn)
    (room user : String) (hok : (m.connect s ws room user).closeCode = none) :
    dictGet (m.connect s ws room user).state.rooms room
      = some (dictGetD (if dictHas m.rooms room then m.rooms
          else dictSet m.rooms room []) room [] ++ [ws]) := by
  unfold RoomManager.connect at hok ⊢
  by_cases h₁ : s.max_connections_per_room ≤ (dictGetD m.rooms room []).length
  · simp [h₁] at hok
  · by_cases h₂ : s.max_connections_per_user ≤ (dictGetD m.user_connections user []).length
    · simp [h₁, h₂] at hok
    · simp only [h₁, h₂, if_false]
      exact dictGet_dictSet_self _ _ _

/-- Claim C4 (amended): the `user_joined` notice broadcast on admission goes to
every connection then in the room, including the joining user's own connection:
whenever admission succeeds and the new socket's delivery does not fail, the
joiner receives their own join notice. -/
theorem C4_join_notice_includes_joiner (s : Settings) (m : RoomManager) (ws : Conn)
    (room user : String) (fails : Conn → Bool)
    (hok : (m.connect s ws room user).closeCode = none) (hws : fails ws = false) :
    ws ∈ (join_flow s m ws room user fails).2 := by
  have hget := connect_rooms_get m s ws room user hok
  unfold join_flow
  dsimp only
  rw [hok]
  dsimp only
  exact broadcast_delivered_mem _ room (joinMessage user) fails _ hget ws (by simp) hws

/-- Witness for C4 (amended) at the concrete state `mgrC4`. -/
theorem C4_join_notice_includes_joiner_witness :
    2 ∈ (join_flow defaultSettings mgrC4 2 "r" "b" noFail).2 :=
  C4_join_notice_includes_joiner defaultSettings mgrC4 2 "r" "b" noFail rfl rfl

/-- For a positive configured cap the external-store push (`LPUSH` + `LTRIM 0
(N-1)`) and the in-process push (`insert(0, ...)` + `[:N]`) are the same list
operation. -/
theorem pushHistoryRedis_eq_mem (n : Nat) (hn : 0 < n) (h : List Message)
    (msg : Message) : pushHistoryRedis n h msg = pushHistoryMem n h msg := by
  unfold pushHistoryRedis redisLtrimHead pushHistoryMem
  have h₁ : ¬((n : Int) - 1 < 0) := by omega
  simp only [h₁, if_false]
  have h₂ : ((n : Int) - 1).toNat + 1 = n := by omega
  rw [h₂]

/-- One `store_message` keeps every room's history within the cap. -/
theorem store_message_capped (m : RoomManager) (s : Settings) (room : String)
    (msg : Message)
    (hinv : ∀ p ∈ m.message_history, p.2.length ≤ s.message_history_length) :
    ∀ p ∈ (m.store_message s room msg).message_history,
      p.2.length ≤ s.message_history_length := by
  intro p hp
  unfold RoomManager.store_message at hp
  dsimp only at hp
  rcases mem_dictSet _ _ _ _ hp with h1 | h2
  · subst h1
    simp [pushHistoryMem]
  · exact hinv p h2

/-- Claim C6: for a positive configured cap, after any sequence of
`store_message` pushes from any state whose histories respect the cap, every
room's stored history length stays within `message_history_length`; and each
push is the same front-append-and-truncate operation in both the
external-store (`LPUSH`/`LTRIM`) and in-process (`insert`/slice)
implementations. -/
theorem C6_history_length_capped (s : Settings) (hn : 0 < s.message_history_length)
    (m : RoomManager)
    (hinv : ∀ p ∈ m.message_history, p.2.length ≤ s.message_history_length)
    (stores : List (String × Message)) :
    (∀ p ∈ (stores.foldl (fun acc rm => acc.store_message s rm.1 rm.2) m).message_history,
      p.2.length ≤ s.message_history_length) ∧
    (∀ (h : List Message) (msg : Message),
      pushHistoryRedis s.message_history_length h msg
        = pushHistoryMem s.message_history_length h msg) := by
  refine ⟨?_, fun h msg => pushHistoryRedis_eq_mem _ hn h msg⟩
  induction stores generalizing m with
  | nil => exact hinv
  | cons q rest ih =>
    simp only [List.foldl_cons]
    exact ih _ (store_message_capped m s q.1 q.2 hinv)

/-- Witness for C6: after two pushes to a fresh manager, room `r`'s stored
history is within the default cap. -/
theorem C6_history_length_capped_witness :
    (dictGetD (([("r", joinMessage "u"), ("r", joinMessage "v")]).foldl
        (fun acc rm => acc.store_message defaultSettings rm.1 rm.2)
        emptyManager).message_history "r" []).length
      ≤ defaultSettings.message_history_length := by
  have h := (C6_history_length_capped defaultSettings (by decide) emptyManager
    (by intro p hp; simp [emptyManager] at hp)
    [("r", joinMessage "u"), ("r", joinMessage "v")]).1
  exact h ("r", dictGetD (([("r", joinMessage "u"), ("r", joinMessage "v")]).foldl
      (fun acc rm => acc.store_message defaultSettings rm.1 rm.2)
      emptyManager).message_history "r" []) (by decide)

/-- Folding pushes below the cap performs no truncation: the result is the
pushed messages reversed onto the initial log. -/
theorem foldl_push_no_trunc (n : Nat) (msgs : List Message) :
    ∀ init : List Message, init.length + msgs.length ≤ n →
      msgs.foldl (fun hh x => (x :: hh).take n) init = msgs.reverse ++ init := by
  induction msgs with
  | nil => intro init _; simp
  | cons x xs ih =>
    intro init hlen
    simp only [List.length_cons] at hlen
    simp only [List.foldl_cons]
    have hx : (x :: init).length ≤ n := by
      simp only [List.length_cons]
      omega
    rw [List.take_of_length_le hx]
    rw [ih (x :: init) (by simp only [List.length_cons]; omega)]
    simp

/-- The per-room stored history after a fold of `store_message` is the pure
fold of push-and-truncate over the room's initial stored history. -/
theorem store_message_foldl_hist (s : Settings) (room : String) (msgs : List Message) :
    ∀ m : RoomManager,
      dictGetD (msgs.foldl (fun acc msg => acc.store_message s room msg) m).message_history
          room []
        = msgs.foldl (fun hh x => (x :: hh).take s.message_history_length)
            (dictGetD m.message_history room []) := by
  induction msgs with
  | nil => intro m; rfl
  | cons x xs ih =>
    intro m
    simp only [List.foldl_cons]
    rw [ih]
    congr 1
    simp [RoomManager.store_message, pushHistoryMem, dictGetD, dictGet_dictSet_self]

/-- Claim C7: pushing `m1..mk` (`k` within the cap) into a room with no prior
history and then reading returns `m1..mk` in push order: the stored order is
newest-first and `get_message_history` reverses it to chronological order. -/
theorem C7_read_history_chronological (s : Settings) (m : RoomManager) (room : String)
    (msgs : List Message) (h0 : dictGet m.message_history room = none)
    (hk : msgs.length ≤ s.message_history_length) :
    (msgs.foldl (fun acc msg => acc.store_message s room msg) m).get_message_history room
      = msgs := by
  unfold RoomManager.get_message_history
  rw [store_message_foldl_hist]
  have he : dictGetD m.message_history room [] = [] := by simp [dictGetD, h0]
  rw [he, foldl_push_no_trunc s.message_history_length msgs [] (by simpa using hk)]
  simp

/-- Witness for C7: two concrete pushes replay in push order. -/
theorem C7_read_history_chronological_witness :
    (([joinMessage "a", joinMessage "b"]).foldl
        (fun acc msg => acc.store_message defaultSettings "r" msg)
        emptyManager).get_message_history "r"
      = [joinMessage "a", joinMessage "b"] :=
  C7_read_history_chronological defaultSettings emptyManager "r"
    [joinMessage "a", joinMessage "b"] rfl (by decide)

/-- Every message stored in every room's history is a chat message. -/
def histOnlyChat (m : RoomManager) : Prop :=
  ∀ p ∈ m.message_history, ∀ msg ∈ p.2, msg.type = MessageType.chat_message

theorem histOnlyChat_of_eq (m m' : RoomManager)
    (h : m'.message_history = m.message_history) (hm : histOnlyChat m) :
    histOnlyChat m' := by
  intro p hp
  rw [h] at hp
  exact hm p hp

theorem histOnlyChat_get (m : RoomManager) (hm : histOnlyChat m) (room : String) :
    ∀ q ∈ dictGetD m.message_history room [], q.type = MessageType.chat_message := by
  intro q hq
  unfold dictGetD at hq
  cases hget : dictGet m.message_history room with
  | none => rw [hget] at hq; simp at hq
  | some l =>
    rw [hget] at hq
    simp only [Option.getD_some] at hq
    exact hm (room, l) (dictGet_mem _ _ _ hget) q hq

theorem histOnlyChat_store_chat (m : RoomManager) (s : Settings) (room : String)
    (msg : Message) (hmsg : msg.type = MessageType.chat_message) (hm : histOnlyChat m) :
    histOnlyChat (m.store_message s room msg) := by
  intro p hp q hq
  unfold RoomManager.store_message at hp
  dsimp only at hp
  rcases mem_dictSet _ _ _ _ hp with h1 | h2
  · subst h1
    have hq' := List.take_subset _ _ hq
    rcases List.mem_cons.mp hq' with h | h
    · subst h; exact hmsg
    · exact histOnlyChat_get m hm room q h
  · exact hm p h2 q hq

theorem histOnlyChat_applyOp (s : Settings) (m : RoomManager) (op : Op)
    (hm : histOnlyChat m) : histOnlyChat (applyOp s m op) := by
  cases op with
  | connectOp ws room user =>
    exact histOnlyChat_of_eq m _ (connect_message_history m s ws room user) hm
  | disconnectOp ws room user =>
    exact histOnlyChat_of_eq m _ (disconnect_message_history m ws room user) hm
  | broadcastOp room msg fails =>
    exact histOnlyChat_of_eq m _ (broadcast_message_history m room msg fails) hm
  | frameOp room user inb fails =>
    show histOnlyChat (handle_frame_state s m room user inb fails)
    unfold handle_frame_state
    cases heff : handle_frame s inb with
    | broadcastChat content =>
      dsimp only
      apply histOnlyChat_store_chat _ s room _ rfl
      exact histOnlyChat_of_eq m _ (broadcast_message_history m room _ fails) hm
    | privateMsg recipient content =>
      dsimp only
      exact histOnlyChat_of_eq m _ (send_personal_message_history m _ recipient fails) hm
    | errorFrame text => exact hm
    | dropped => exact hm

theorem histOnlyChat_applyOps (s : Settings) (ops : List Op) :
    ∀ m : RoomManager, histOnlyChat m → histOnlyChat (applyOps s m ops) := by
  induction ops with
  | nil => intro m hm; exact hm
  | cons op rest ih =>
    intro m hm
    show histOnlyChat (applyOps s (applyOp s m op) rest)
    exact ih _ (histOnlyChat_applyOp s m op hm)

/-- Claim C8: a `private_message` frame is routed via `send_personal_message`
and leaves every room's history untouched; and over any operation sequence
from a state whose histories hold only chat messages, `get_message_history`
never returns a `private_message`. -/
theorem C8_private_never_in_history (s : Settings) (m : RoomManager)
    (hm : histOnlyChat m) :
    (∀ room user inb fails r c, handle_frame s inb = .privateMsg r c →
      (handle_frame_state s m room user inb fails).message_history
        = m.message_history) ∧
    (∀ ops : List Op, histOnlyChat (applyOps s m ops) ∧
      ∀ room msg, msg ∈ (applyOps s m ops).get_message_history room →
        msg.type ≠ MessageType.private_message) := by
  constructor
  · intro room user inb fails r c hpriv
    unfold handle_frame_state
    rw [hpriv]
    exact send_personal_message_history m _ r fails
  · intro ops
    have hall := histOnlyChat_applyOps s ops m hm
    refine ⟨hall, ?_⟩
    intro room msg hmsg
    unfold RoomManager.get_message_history at hmsg
    rw [List.mem_reverse] at hmsg
    have hc := histOnlyChat_get _ hall room msg hmsg
    rw [hc]
    intro hcontra
    cases hcontra

/-- A concrete well-formed private-message frame. -/
def pmFrame : Inbound :=
  .parsed "pm" (.obj [("type", .str "private_message"), ("recipient", .str "v"),
    ("content", .str "s")])

/-- Witness for C8: a delivered private message leaves the history of `mgrC2`
unchanged. -/
theorem C8_private_never_in_history_witness :
    (handle_frame_state defaultSettings mgrC2 "r" "u" pmFrame noFail).message_history
      = mgrC2.message_history := by
  have hm : histOnlyChat mgrC2 := by
    intro p hp
    simp [mgrC2] at hp
  exact (C8_private_never_in_history defaultSettings mgrC2 hm).1 "r" "u" pmFrame
    noFail "v" "s" rfl

/-- The registry invariant of claim C9: room keys are unique (Python dict) and
every room entry holds at least one connection. -/
def RoomsInv (m : RoomManager) : Prop :=
  (m.rooms.map Prod.fst).Nodup ∧ ∀ p ∈ m.rooms, p.2 ≠ []

theorem RoomsInv_of_rooms_eq (m m' : RoomManager) (h : m'.rooms = m.rooms)
    (hm : RoomsInv m) : RoomsInv m' := by
  unfold RoomsInv
  rw [h]
  exact hm

theorem RoomsInv_connect (m : RoomManager) (s : Settings) (ws : Conn)
    (room user : String) (hm : RoomsInv m) :
    RoomsInv (m.connect s ws room user).state := by
  obtain ⟨hnd, hne⟩ := hm
  unfold RoomManager.connect
  by_cases h₁ : s.max_connections_per_room ≤ (dictGetD m.rooms room []).length
  · rw [if_pos h₁]
    exact ⟨hnd, hne⟩
  · rw [if_neg h₁]
    by_cases h₂ : s.max_connections_per_user ≤ (dictGetD m.user_connections user []).length
    · rw [if_pos h₂]
      exact ⟨hnd, hne⟩
    · rw [if_neg h₂]
      dsimp only
      have hnd₁ : ((if dictHas m.rooms room then m.rooms
          else dictSet m.rooms room []).map Prod.fst).Nodup := by
        by_cases hh : dictHas m.rooms room = true
        · rw [if_pos hh]; exact hnd
        · rw [if_neg hh]; exact nodup_keys_dictSet _ _ _ hnd
      refine ⟨nodup_keys_dictSet _ _ _ hnd₁, ?_⟩
      intro p hp
      rcases mem_dictSet_of_nodup _ _ _ _ hnd₁ hp with h1 | h2
      · subst h1
        simp
      · obtain ⟨hpmem, hpne⟩ := h2
        by_cases hh : dictHas m.rooms room = true
        · rw [if_pos hh] at hpmem
          exact hne p hpmem
        · rw [if_neg hh] at hpmem
          rcases mem_dictSet_of_nodup _ _ _ _ hnd hpmem with h3 | h4
          · exact absurd (by rw [h3]) hpne
          · exact hne p h4.1

theorem RoomsInv_disconnectRoomPart (m : RoomManager) (ws : Conn) (room : String)
    (hm : RoomsInv m) : RoomsInv (m.disconnectRoomPart ws room) := by
  obtain ⟨hnd, hne⟩ := hm
  unfold RoomManager.disconnectRoomPart
  cases hget : dictGet m.rooms room with
  | none => exact ⟨hnd, hne⟩
  | some conns =>
    dsimp only
    by_cases hws : ws ∈ conns
    · rw [if_pos hws]
      by_cases hemp : (conns.erase ws).isEmpty = true
      · rw [if_pos hemp]
        exact ⟨nodup_keys_dictDel _ _ hnd, fun p hp => hne p (mem_dictDel _ _ _ hp).1⟩
      · rw [if_neg hemp]
        refine ⟨nodup_keys_dictSet _ _ _ hnd, ?_⟩
        intro p hp
        rcases mem_dictSet_of_nodup _ _ _ _ hnd hp with h1 | h2
        · subst h1
          simpa [List.isEmpty_iff] using hemp
        · exact hne p h2.1
    · rw [if_neg hws]
      exact ⟨hnd, hne⟩

theorem RoomsInv_disconnect (m : RoomManager) (ws : Conn) (room user : String)
    (hm : RoomsInv m) : RoomsInv (m.disconnect ws room user) :=
  RoomsInv_of_rooms_eq _ _
    (disconnectUserPart_rooms (m.disconnectRoomPart ws room) ws user)
    (RoomsInv_disconnectRoomPart m ws room hm)

theorem RoomsInv_broadcast (m : RoomManager) (room : String) (msg : Message)
    (fails : Conn → Bool) (hm : RoomsInv m) :
    RoomsInv (m.broadcast_to_room room msg fails).1 := by
  obtain ⟨hnd, hne⟩ := hm
  unfold RoomManager.broadcast_to_room
  cases hget : dictGet m.rooms room with
  | none => exact ⟨hnd, hne⟩
  | some conns =>
    dsimp only
    split
    next hemp =>
      exact ⟨nodup_keys_dictDel _ _ hnd, fun p hp => hne p (mem_dictDel _ _ _ hp).1⟩
    next hemp =>
      refine ⟨nodup_keys_dictSet _ _ _ hnd, ?_⟩
      intro p hp
      rcases mem_dictSet_of_nodup _ _ _ _ hnd hp with h1 | h2
      · subst h1
        simpa [List.isEmpty_iff] using hemp
      · exact hne p h2.1

theorem RoomsInv_applyOp (s : Settings) (m : RoomManager) (op : Op)
    (hm : RoomsInv m) : RoomsInv (applyOp s m op) := by
  cases op with
  | connectOp ws room user => exact RoomsInv_connect m s ws room user hm
  | disconnectOp ws room user => exact RoomsInv_disconnect m ws room user hm
  | broadcastOp room msg fails => exact RoomsInv_broadcast m room msg fails hm
  | frameOp room user inb fails =>
    show RoomsInv (handle_frame_state s m room user inb fails)
    unfold handle_frame_state
    cases heff : handle_frame s inb with
    | broadcastChat content =>
      dsimp only
      apply RoomsInv_of_rooms_eq _ _ (store_message_rooms _ s room _)
      exact RoomsInv_broadcast m room _ fails hm
    | privateMsg recipient content =>
      dsimp only
      exact RoomsInv_of_rooms_eq _ _
        (send_personal_message_rooms m _ recipient fails) hm
    | errorFrame text => exact hm
    | dropped => exact hm

theorem RoomsInv_applyOps (s : Settings) (ops : List Op) :
    ∀ m : RoomManager, RoomsInv m → RoomsInv (applyOps s m ops) := by
  induction ops with
  | nil => intro m hm; exact hm
  | cons op rest ih =>
    intro m hm
    show RoomsInv (applyOps s (applyOp s m op) rest)
    exact ih _ (RoomsInv_applyOp s m op hm)

/-- Claim C9: over any sequence of connect, disconnect, broadcast and frame
operations from a well-formed state, a room entry exists in the registry iff it
holds at least one connection: every stored entry is non-empty (the entry is
deleted within the same operation that removes its last connection, whether a
disconnect or broadcast-driven reaping). -/
theorem C9_room_entry_iff_nonempty (s : Settings) (m : RoomManager) (hm : RoomsInv m)
    (ops : List Op) :
    RoomsInv (applyOps s m ops) ∧
    ∀ room conns, dictGet (applyOps s m ops).rooms room = some conns → conns ≠ [] := by
  have hall := RoomsInv_applyOps s ops m hm
  exact ⟨hall, fun room conns hget => hall.2 (room, conns) (dictGet_mem _ _ _ hget)⟩

/-- Witness for C9 over a concrete connect/disconnect/broadcast sequence. -/
theorem C9_room_entry_iff_nonempty_witness :
    RoomsInv (applyOps defaultSettings emptyManager
      [Op.connectOp 1 "r" "u", Op.broadcastOp "r" (joinMessage "u") noFail,
       Op.disconnectOp 1 "r" "u"]) :=
  (C9_room_entry_iff_nonempty defaultSettings emptyManager
    ⟨List.nodup_nil, by intro p hp; simp [emptyManager] at hp⟩
    [Op.connectOp 1 "r" "u", Op.broadcastOp "r" (joinMessage "u") noFail,
     Op.disconnectOp 1 "r" "u"]).1

/-- Claim C5: the admission path closes with exactly the spec's close code for
each failure — 4000 for empty or oversized ids, 4001 for an invalid or missing
code on a room that has one, 4003 when the room is at capacity, 4004 when the
user is at capacity, and admission otherwise — and on every rejection the
handshake was never accepted and no registry index or counter is mutated. -/
theorem C5_admission_close_codes (s : Settings) (m : RoomManager) (ws : Conn)
    (room_id user_id : String) (code : Option String) (fresh : String) :
    (websocket_admission s m ws room_id user_id code fresh).closeCode
      = admission_spec_close s m room_id user_id code ∧
    ((websocket_admission s m ws room_id user_id code fresh).closeCode.isSome →
      (websocket_admission s m ws room_id user_id code fresh).accepted = false ∧
      (websocket_admission s m ws room_id user_id code fresh).state.rooms = m.rooms ∧
      (websocket_admission s m ws room_id user_id code fresh).state.user_connections
        = m.user_connections ∧
      (websocket_admission s m ws room_id user_id code fresh).state.connection_counts
        = m.connection_counts ∧
      (websocket_admission s m ws room_id user_id code fresh).state.user_connection_counts
        = m.user_connection_counts) := by
  unfold websocket_admission admission_spec_close
  by_cases hids1 : ((pyStrip room_id).isEmpty || (pyStrip user_id).isEmpty) = true
  · rw [if_pos hids1, if_pos hids1]
    simp
  · rw [if_neg hids1, if_neg hids1]
    by_cases hids2 : 50 < room_id.length ∨ 50 < user_id.length
    · rw [if_pos hids2, if_pos hids2]
      simp
    · rw [if_neg hids2, if_neg hids2]
      by_cases hcode : ((m.get_room_code room_id).getD "").isEmpty = true
      · rw [if_pos hcode]
        rw [if_neg (by simp [hcode] :
          ¬((!((m.get_room_code room_id).getD "").isEmpty) = true
            ∧ (!(m.is_code_valid room_id code)) = true))]
        unfold RoomManager.connect RoomManager.set_room_code
        dsimp only
        by_cases h₁ : s.max_connections_per_room ≤ (dictGetD m.rooms room_id []).length
        · rw [if_pos h₁, if_pos h₁]
          simp
        · rw [if_neg h₁, if_neg h₁]
          by_cases h₂ : s.max_connections_per_user
              ≤ (dictGetD m.user_connections user_id []).length
          · rw [if_pos h₂, if_pos h₂]
            simp
          · rw [if_neg h₂, if_neg h₂]
            simp
      · have hcf : ((m.get_room_code room_id).getD "").isEmpty = false := by
          simpa using hcode
        rw [if_neg hcode]
        by_cases hvalid : (m.is_code_valid room_id code) = true
        · rw [if_neg (by simp [hvalid] : ¬((!(m.is_code_valid room_id code)) = true))]
          rw [if_neg (by simp [hvalid] :
            ¬((!((m.get_room_code room_id).getD "").isEmpty) = true
              ∧ (!(m.is_code_valid room_id code)) = true))]
          unfold RoomManager.connect
          dsimp only
          by_cases h₁ : s.max_connections_per_room ≤ (dictGetD m.rooms room_id []).length
          · rw [if_pos h₁, if_pos h₁]
            simp
          · rw [if_neg h₁, if_neg h₁]
            by_cases h₂ : s.max_connections_per_user
                ≤ (dictGetD m.user_connections user_id []).length
            · rw [if_pos h₂, if_pos h₂]
              simp
            · rw [if_neg h₂, if_neg h₂]
              simp
        · have hvf : m.is_code_valid room_id code = false := by simpa using hvalid
          rw [if_pos (by simp [hvf] : (!(m.is_code_valid room_id code)) = true)]
          rw [if_pos ⟨by simp [hcf], by simp [hvf]⟩]
          simp

/-- A settings record with a per-room capacity of one connection. -/
def smallRoomSettings : Settings := { max_connections_per_room := 1 }

/-- Witness for C5 at a concrete full room: a second join of room `r` of
`mgrC4` with the correct code is closed with 4003 and leaves the registry
untouched. -/
theorem C5_admission_close_codes_witness :
    (websocket_admission smallRoomSettings mgrC4 2 "r" "b" (some "ABCDE") "XXXXX").closeCode
      = some 4003 ∧
    (websocket_admission smallRoomSettings mgrC4 2 "r" "b" (some "ABCDE") "XXXXX").accepted
      = false ∧
    (websocket_admission smallRoomSettings mgrC4 2 "r" "b" (some "ABCDE") "XXXXX").state.rooms
      = mgrC4.rooms := by
  have h := C5_admission_close_codes smallRoomSettings mgrC4 2 "r" "b" (some "ABCDE") "XXXXX"
  have hclose : (websocket_admission smallRoomSettings mgrC4 2 "r" "b"
      (some "ABCDE") "XXXXX").closeCode = some 4003 := by
    rw [h.1]
    decide
  have hrest := h.2 (by rw [hclose]; rfl)
  exact ⟨hclose, hrest.1, hrest.2.1⟩
